import Mathlib

/-!
Shallow embedding of the auto-translate-web-ui backend
(`src/backend/services/pipeline.py`, `src/backend/tasks.py`,
`src/backend/api/routes.py`, `src/backend/utils.py`) and proofs about it.

External effects (the OpenAI chat client, whisper decoding, ffmpeg, Silero
VAD, the database and the file system) are modelled as explicit oracle
parameters and explicit state; everything computed by the repository's own
Python code is translated directly.
-/

namespace AutoTranslate

/-- Python truthiness of a string: non-empty strings are truthy. -/
def truthy (s : String) : Bool := !s.isEmpty

/-- Python truthiness of an optional string column (`None` and `""` are falsy). -/
def truthyOpt : Option String → Bool
  | none => false
  | some s => truthy s

/-- Python `str.strip()`: remove leading and trailing whitespace
(structurally recursive so that concrete instances evaluate). -/
def pyStrip (s : String) : String :=
  String.mk
    (((s.data.dropWhile Char.isWhitespace).reverse.dropWhile
      Char.isWhitespace).reverse)

/-- Python list slice `l[a:b]` for `0 ≤ a ≤ b` (clamped at the length, as in
Python; all slices in the embedded code have `a ≤ b`). -/
def pySlice {α : Type} (l : List α) (a b : ℕ) : List α := (l.drop a).take (b - a)

/-- The abstract LLM chat-completion oracle behind
`client.chat.completions.create` in `translate_single_text`: it receives the
data the prompt is built from (the sentence, the target language,
`context_before`, `context_after`, `previous_translated`) and returns the
reply content, or `none` when the API call raises an exception. -/
def LLMOracle : Type :=
  String → String → String → String → String → Option String

/-- Result of one `translate_single_text` run together with the number of
chat-completion API calls it performed. -/
structure TranslateCall where
  text : String
  api_calls : ℕ
deriving DecidableEq, Repr

/-- `translate_single_text` (pipeline.py, lines 158-192), instrumented with
the number of chat-completion API calls performed.  Empty or whitespace-only
input returns `""` before the client is ever touched; a failing API call is
caught and the untranslated input text is returned. -/
def translate_single_text_instr (oracle : LLMOracle)
    (text target_language context_before context_after previous_translated : String) :
    TranslateCall :=
  if pyStrip text = "" then ⟨"", 0⟩
  else
    match oracle text target_language context_before context_after previous_translated with
    | some content => ⟨pyStrip content, 1⟩
    | none => ⟨text, 1⟩

/-- `translate_single_text` (pipeline.py): just the returned string. -/
def translate_single_text (oracle : LLMOracle)
    (text target_language context_before context_after previous_translated : String) :
    String :=
  (translate_single_text_instr oracle text target_language context_before
    context_after previous_translated).text

/-- `context_before` built in the loop of `translate_segments`
(pipeline.py, lines 214-217): `"\n".join(texts[max(0, i-W):i])`.
`ℕ`-subtraction is exactly Python's `max(0, i - W)`. -/
def ctx_before (texts : List String) (context_window i : ℕ) : String :=
  String.intercalate "\n" (pySlice texts (i - context_window) i)

/-- `context_after` built in the loop of `translate_segments`
(pipeline.py, lines 215-218): `"\n".join(texts[i+1:min(len(texts), i+1+W)])`. -/
def ctx_after (texts : List String) (context_window i : ℕ) : String :=
  String.intercalate "\n"
    (pySlice texts (i + 1) (min texts.length (i + 1 + context_window)))

/-- `previous_translated` built in the loop of `translate_segments`
(pipeline.py, lines 221-222): `"\n".join(translated_texts[max(0, len-W):])`. -/
def prev_translated (translated_texts : List String) (context_window : ℕ) : String :=
  String.intercalate "\n"
    (pySlice translated_texts (translated_texts.length - context_window)
      translated_texts.length)

/-- The `translated_texts` accumulator of `translate_segments` after the
first `n` iterations of its loop (pipeline.py, lines 212-233). -/
def translateAcc (oracle : LLMOracle) (target_language : String)
    (context_window : ℕ) (texts : List String) : ℕ → List String
  | 0 => []
  | n + 1 =>
    let acc := translateAcc oracle target_language context_window texts n
    acc ++ [translate_single_text oracle (texts.getD n "") target_language
      (ctx_before texts context_window n) (ctx_after texts context_window n)
      (prev_translated acc context_window)]

/-- The full `translated_texts` list produced by the loop of
`translate_segments`. -/
def translated_texts (oracle : LLMOracle) (target_language : String)
    (context_window : ℕ) (texts : List String) : List String :=
  translateAcc oracle target_language context_window texts texts.length

/-- One segment dictionary flowing through the pipeline
(`transcribe_with_whisper` output, `translate_segments` input/output).
The Python dict key `end` is spelled `end_` (`end` is reserved in Lean). -/
structure PSeg where
  start : ℚ
  end_ : ℚ
  text_original : String
  text_translated : Option String
  confidence : ℚ
deriving DecidableEq, Repr

/-- Default segment used with `List.getD`. -/
def pdflt : PSeg := ⟨0, 0, "", none, 0⟩

/-- The per-index mutation `segments[i]["text_translated"] = translated;
segments[i]["confidence"] = 0.9` of `translate_segments` (pipeline.py,
lines 236-238), applied index-wise to the list of produced translations. -/
def updateSegs : List PSeg → List String → List PSeg
  | [], _ => []
  | ss, [] => ss
  | s :: ss, t :: ts =>
    { s with text_translated := some t, confidence := 9/10 } :: updateSegs ss ts

/-- `translate_segments` (pipeline.py, lines 195-240).  `batch_size` is
deprecated and unused in the source; it is dropped here. -/
def translate_segments (oracle : LLMOracle) (target_language : String)
    (context_window : ℕ) (segments : List PSeg) : List PSeg :=
  if segments.isEmpty then segments
  else
    updateSegs segments
      (translated_texts oracle target_language context_window
        (segments.map PSeg.text_original))

/-! ### Transcriber, orchestrator and background task -/

/-- One VAD speech interval in sample offsets (`get_vad_segments` output;
dict keys `start`/`end`, the latter spelled `end_`). -/
structure Interval where
  start : ℕ
  end_ : ℕ
deriving DecidableEq, Repr

/-- Process-wide configuration (`config.py` `Settings`), restricted to the
fields the embedded code reads. -/
structure Settings where
  whisper_model : String
  target_language : String
  translation_batch_size : ℤ
deriving DecidableEq, Repr

/-- Per-video configuration persisted on the `Video` row at upload
(routes.py, lines 48-52). -/
structure VideoConfig where
  batch_size : ℤ
  context_window : ℕ
  whisper_model : String
deriving DecidableEq, Repr

/-- `transcribe_with_whisper` (pipeline.py, lines 81-121).  `decode` is the
oracle for `model.transcribe` on the audio slice of one interval, given the
requested model name; the result text is stripped, sample offsets are
divided by 16000 to obtain seconds, and confidence is the constant 1.0
placeholder. -/
def transcribe_with_whisper (decode : String → Interval → String)
    (model_name : String) (vad_segments : List Interval) : List PSeg :=
  vad_segments.map fun segment =>
    { start := (segment.start : ℚ) / 16000
      end_ := (segment.end_ : ℚ) / 16000
      text_original := pyStrip (decode model_name segment)
      text_translated := none
      confidence := 1 }

/-- Oracles for the effectful stages of `process_video`:
whether the video file exists, the outcome of ffmpeg extraction (and
whether a half-written temp file appears when extraction fails), the VAD
model run, the whisper model load, the per-interval whisper decode, and
the LLM translation client. -/
structure StageOracles where
  file_exists : Bool
  extract : Except String Unit
  extract_leftover : Bool
  vad : Except String (List Interval)
  whisper_load : Except String Unit
  decode : String → Interval → String
  translate : LLMOracle

/-- The temporary audio path computed by `process_video` (pipeline.py,
lines 255-259): `dirname(video_path)/temp/{basename-without-extension}_temp.wav`.
Models `os.path.basename`/`splitext`/`dirname`/`join` for ordinary
`dir/name.ext` paths. -/
def temp_audio_path (video_path : String) : String :=
  let parts := video_path.splitOn "/"
  let base := parts.getLastD ""
  let base_name :=
    match base.splitOn "." with
    | [] => base
    | [b] => b
    | bs => String.intercalate "." bs.dropLast
  String.intercalate "/" parts.dropLast ++ "/temp/" ++ base_name ++ "_temp.wav"

/-- Outcome of one `process_video` run: the returned segments or the raised
error, the set of files present afterwards, and (instrumentation) the
`model_name` handed to `transcribe_with_whisper` and the `context_window`
handed to `translate_segments`, when those calls were reached. -/
structure PVOutcome where
  result : Except String (List PSeg)
  fs : Finset String
  used_whisper_model : Option String
  used_context_window : Option ℕ

/-- `process_video` (pipeline.py, lines 242-291).  `fs0` is the set of files
on disk when the run starts.  The `try`-body result is computed first and
the `finally` cleanup (`os.remove` of the temp file if it exists) is applied
to the file set on every path through the `try` block; the
`FileNotFoundError` check happens before the `try` and cleans nothing.
`batch_size` is passed to `translate_segments`, which ignores it. -/
def process_video (o : StageOracles) (s : Settings) (fs0 : Finset String)
    (video_path : String)
    (batch_size : ℤ := s.translation_batch_size)
    (context_window : ℕ := 3)
    (whisper_model : String := s.whisper_model) : PVOutcome :=
  if o.file_exists = false then
    { result := .error "FileNotFoundError", fs := fs0
      used_whisper_model := none, used_context_window := none }
  else
    let temp := temp_audio_path video_path
    let body : Except String (List PSeg) × Finset String × Option String × Option ℕ :=
      match o.extract with
      | .error _ =>
        (.error "Failed to extract audio",
          (if o.extract_leftover then insert temp fs0 else fs0), none, none)
      | .ok _ =>
        let fs1 := insert temp fs0
        match o.vad with
        | .error e => (.error e, fs1, none, none)
        | .ok vad_segments =>
          match o.whisper_load with
          | .error e => (.error e, fs1, some whisper_model, none)
          | .ok _ =>
            let subtitles := transcribe_with_whisper o.decode whisper_model vad_segments
            let _ := batch_size
            let out := translate_segments o.translate s.target_language
              context_window subtitles
            (.ok out, fs1, some whisper_model, some context_window)
    { result := body.1, fs := body.2.1.erase temp
      used_whisper_model := body.2.2.1, used_context_window := body.2.2.2 }

/-- `VideoStatus` (models.py). -/
inductive VideoStatus where
  | uploading
  | processing
  | ready
  | error
deriving DecidableEq, Repr

/-- One persisted `Subtitle` row (models.py), without the id/video-id keys. -/
structure SubRow where
  start_time : ℚ
  end_time : ℚ
  text_original : Option String
  text_translated : Option String
  confidence : ℚ
deriving DecidableEq, Repr

/-- Default row used with `List.getD`. -/
def rdflt : SubRow := ⟨0, 0, none, none, 0⟩

/-- The `Subtitle` row built for one pipeline segment by
`_save_subtitles_and_complete` (tasks.py, lines 44-52):
`text_translated = seg.get('text_translated', '')`,
`confidence = seg.get('confidence', 0.0)`. -/
def subtitle_row_of_seg (seg : PSeg) : SubRow :=
  { start_time := seg.start
    end_time := seg.end_
    text_original := some seg.text_original
    text_translated := some (seg.text_translated.getD "")
    confidence := seg.confidence }

/-- Observable outcome of upload-then-background-processing for one video:
the successive values committed to the `status` column (in order), the
subtitle rows persisted by the run, the config stored on the `Video` row,
and the instrumented pipeline parameters. -/
structure TaskResult where
  status_trace : List VideoStatus
  rows : List SubRow
  video_config : VideoConfig
  used_whisper_model : Option String
  used_context_window : Option ℕ
deriving Repr

/-- `upload_video` (routes.py, lines 22-72) composed with
`process_video_task` (tasks.py, lines 63-92).  The upload commits
`UPLOADING`, persists `cfg` on the row, commits `PROCESSING`, and enqueues
the task with only `(video_id, file_path)`; the task then calls
`process_video(file_path)` with its default arguments — the persisted
per-video config is not read.  On success the subtitle rows and the `READY`
status are committed together by `_save_subtitles_and_complete`
(`video_in_db` is its existence check, `persist_commit_ok` the fate of its
commit); any exception from the pipeline or the save makes the task commit
`ERROR` and re-raise. -/
def upload_and_process (o : StageOracles) (s : Settings) (fs0 : Finset String)
    (file_path : String) (cfg : VideoConfig)
    (video_in_db : Bool) (persist_commit_ok : Bool) : TaskResult :=
  let pre := [VideoStatus.uploading, VideoStatus.processing]
  let pv := process_video o s fs0 file_path
  match pv.result with
  | .error _ =>
    { status_trace := pre ++ [VideoStatus.error], rows := [], video_config := cfg
      used_whisper_model := pv.used_whisper_model
      used_context_window := pv.used_context_window }
  | .ok segs =>
    if video_in_db && persist_commit_ok then
      { status_trace := pre ++ [VideoStatus.ready]
        rows := segs.map subtitle_row_of_seg, video_config := cfg
        used_whisper_model := pv.used_whisper_model
        used_context_window := pv.used_context_window }
    else
      { status_trace := pre ++ [VideoStatus.error], rows := [], video_config := cfg
        used_whisper_model := pv.used_whisper_model
        used_context_window := pv.used_context_window }

/-- Final persisted status of a run. -/
def job_status (t : TaskResult) : VideoStatus :=
  t.status_trace.getLastD VideoStatus.error

/-! ### SRT export (`utils.py`) -/

/-- Python `int()` on a rational: truncation toward zero. -/
def pyInt (q : ℚ) : ℤ := if q < 0 then ⌈q⌉ else ⌊q⌋

/-- Python `a // b` on floats (real semantics): `⌊a / b⌋` as a value. -/
def pyFloorDiv (a b : ℚ) : ℚ := (⌊a / b⌋ : ℤ)

/-- Python `a % b` on floats (real semantics): `a - b * ⌊a / b⌋`. -/
def pyMod (a b : ℚ) : ℚ := a - b * (⌊a / b⌋ : ℤ)

/-- Left-pad a string with zeros to width `w`. -/
def zfill (w : ℕ) (s : String) : String :=
  String.mk (List.replicate (w - s.length) '0') ++ s

/-- Python `f"{x:0{w}d}"`: decimal rendering left-padded with zeros to width
`w`, a leading minus sign counting toward the width. -/
def pyFmtD (w : ℕ) (x : ℤ) : String :=
  if x < 0 then "-" ++ zfill (w - 1) (toString (-x)) else zfill w (toString x)

/-- `format_srt_time` (utils.py, lines 4-10), with the float arithmetic read
over `ℚ`. -/
def format_srt_time (seconds : ℚ) : String :=
  let hours : ℤ := pyInt (pyFloorDiv seconds 3600)
  let minutes : ℤ := pyInt (pyFloorDiv (pyMod seconds 3600) 60)
  let secs : ℤ := pyInt (pyMod seconds 60)
  let millis : ℤ := pyInt ((seconds - (pyInt seconds : ℚ)) * 1000)
  pyFmtD 2 hours ++ ":" ++ pyFmtD 2 minutes ++ ":" ++ pyFmtD 2 secs ++ ","
    ++ pyFmtD 3 millis

/-- The `srt_lines` list built by the loop of `generate_srt` (utils.py,
lines 25-45), starting from sequence number `index`. -/
def srt_lines (use_translated : Bool) (index : ℕ) : List SubRow → List String
  | [] => []
  | subtitle :: rest =>
    toString index ::
    (format_srt_time subtitle.start_time ++ " --> "
      ++ format_srt_time subtitle.end_time) ::
    (if use_translated && truthyOpt subtitle.text_translated then
        subtitle.text_translated.getD ""
      else subtitle.text_original.getD "") ::
    "" :: srt_lines use_translated (index + 1) rest

/-- `generate_srt` (utils.py, lines 13-47). -/
def generate_srt (subtitles : List SubRow) (use_translated : Bool) : String :=
  String.intercalate "\n" (srt_lines use_translated 1 subtitles)

/-! ### Subtitle routes (`api/routes.py`) -/

/-- Payload of the manual-create endpoint (routes.py `SubtitleCreate`):
both text fields default to `""`. -/
structure SubtitleCreate where
  start_time : ℚ
  end_time : ℚ
  text_original : String := ""
  text_translated : String := ""
deriving DecidableEq, Repr

/-- `create_subtitle` (routes.py, lines 197-220): the row inserted when the
video exists (`confidence=1.0  # Manual entry`), `none` for the 404 path. -/
def create_subtitle (video_exists : Bool) (subtitle : SubtitleCreate) :
    Option SubRow :=
  if video_exists then
    some { start_time := subtitle.start_time
           end_time := subtitle.end_time
           text_original := some subtitle.text_original
           text_translated := some subtitle.text_translated
           confidence := 1 }
  else none

/-- Insert one row into a list sorted by descending `start_time`
(model of the DB sort for `order_by(Subtitle.start_time.desc())`). -/
def insertDesc (r : SubRow) : List SubRow → List SubRow
  | [] => [r]
  | x :: xs =>
    if x.start_time ≤ r.start_time then r :: x :: xs else x :: insertDesc r xs

/-- Sort by descending `start_time` (insertion sort; models `ORDER BY
start_time DESC`). -/
def order_by_start_desc : List SubRow → List SubRow
  | [] => []
  | x :: xs => insertDesc x (order_by_start_desc xs)

/-- Insert one row into a list sorted by ascending `start_time`. -/
def insertAsc (r : SubRow) : List SubRow → List SubRow
  | [] => [r]
  | x :: xs =>
    if r.start_time ≤ x.start_time then r :: x :: xs else x :: insertAsc r xs

/-- Sort by ascending `start_time` (insertion sort; models `ORDER BY
start_time ASC`). -/
def order_by_start_asc : List SubRow → List SubRow
  | [] => []
  | x :: xs => insertAsc x (order_by_start_asc xs)

/-- The `prev_subs` query of `update_subtitle` (routes.py, lines 157-163):
rows of the video with `start_time` strictly below the target's, newest
first, limited to `context_window`. -/
def queryPrev (rows : List SubRow) (t : ℚ) (context_window : ℕ) : List SubRow :=
  (order_by_start_desc (rows.filter fun r => decide (r.start_time < t))).take
    context_window

/-- The `next_subs` query of `update_subtitle` (routes.py, lines 167-173):
rows of the video with `start_time` strictly above the target's, oldest
first, limited to `context_window`. -/
def queryNext (rows : List SubRow) (t : ℚ) (context_window : ℕ) : List SubRow :=
  (order_by_start_asc (rows.filter fun r => decide (t < r.start_time))).take
    context_window

/-- Observable outcome of the `trigger_translation` branch of
`update_subtitle`: the stored row afterwards, the three context strings
handed to `translate_single_text`, and the two neighbor query results. -/
structure RetransOutcome where
  sub : SubRow
  context_before : String
  context_after : String
  previous_translated : String
  prev_subs : List SubRow
  next_subs : List SubRow
deriving Repr

/-- `context_before` built by `update_subtitle` (routes.py, line 165):
`"\n".join([s.text_original for s in reversed(prev_subs) if s.text_original])`. -/
def point_context_before (rows : List SubRow) (t : ℚ) (context_window : ℕ) :
    String :=
  String.intercalate "\n"
    ((queryPrev rows t context_window).reverse.filterMap fun r =>
      if truthyOpt r.text_original then r.text_original else none)

/-- `context_after` built by `update_subtitle` (routes.py, line 174):
`"\n".join([s.text_original for s in next_subs if s.text_original])`. -/
def point_context_after (rows : List SubRow) (t : ℚ) (context_window : ℕ) :
    String :=
  String.intercalate "\n"
    ((queryNext rows t context_window).filterMap fun r =>
      if truthyOpt r.text_original then r.text_original else none)

/-- `previous_translated` built by `update_subtitle` (routes.py, line 178):
`"\n".join([s.text_translated for s in reversed(prev_subs) if s.text_translated])`. -/
def point_previous_translated (rows : List SubRow) (t : ℚ) (context_window : ℕ) :
    String :=
  String.intercalate "\n"
    ((queryPrev rows t context_window).reverse.filterMap fun r =>
      if truthyOpt r.text_translated then r.text_translated else none)

/-- The re-translation step of `update_subtitle` (routes.py, lines
147-191), run against the current rows of the video (`rows` includes the
target row itself; the strict inequalities of the queries exclude it when
start times are distinct).  Context strings drop falsy (`None`/`""`)
neighbor texts, exactly as the list comprehensions do; the new translation
is stored only when it is truthy. -/
def update_subtitle_retranslate (oracle : LLMOracle) (target_language : String)
    (context_window : ℕ) (rows : List SubRow) (subtitle : SubRow) :
    RetransOutcome :=
  if truthyOpt subtitle.text_original then
    let context_before := point_context_before rows subtitle.start_time context_window
    let context_after := point_context_after rows subtitle.start_time context_window
    let previous_translated :=
      point_previous_translated rows subtitle.start_time context_window
    let new_translation := translate_single_text oracle
      (subtitle.text_original.getD "") target_language context_before
      context_after previous_translated
    let sub :=
      if truthy new_translation then
        { subtitle with text_translated := some new_translation }
      else subtitle
    ⟨sub, context_before, context_after, previous_translated,
      queryPrev rows subtitle.start_time context_window,
      queryNext rows subtitle.start_time context_window⟩
  else ⟨subtitle, "", "", "", [], []⟩

/-! ### Specification-side readings of the claims

These definitions follow the spec's wording; the claim theorems compare
them with the definitions embedded from the source above. -/

/-- Spec reading: the newline-join, oldest first, of the entries of `texts`
at indices `lo ≤ j < hi` (absent indices read as `""`; all claims apply it
within bounds). -/
def specJoinIdx (texts : List String) (lo hi : ℕ) : String :=
  String.intercalate "\n" ((List.range' lo (hi - lo)).map fun j => texts.getD j "")

/-- Spec reading: the last up-to-`n` entries of a list, oldest first. -/
def lastN (n : ℕ) (l : List α) : List α := (l.reverse.take n).reverse

/-- Spec reading of the claimed timing format: hours, minutes, seconds and
milliseconds of the millisecond-truncated timestamp, each zero-padded
(`HH:MM:SS,mmm`). -/
def srt_time_spec (t : ℚ) : String :=
  pyFmtD 2 ⌊t / 3600⌋ ++ ":" ++ pyFmtD 2 (⌊t / 60⌋ % 60) ++ ":"
    ++ pyFmtD 2 (⌊t⌋ % 60) ++ "," ++ pyFmtD 3 (⌊t * 1000⌋ % 1000)

/-- Spec reading of the export text line: `text_translated` when
`translated = true` and a non-empty translated text is present, otherwise
`text_original` (or the empty string if absent). -/
def spec_text_line (translated : Bool) (r : SubRow) : String :=
  if translated = true ∧ r.text_translated ≠ none ∧ r.text_translated ≠ some ""
  then r.text_translated.getD ""
  else r.text_original.getD ""

/-- Spec reading of one export record: a 1-based sequence-number line, a
timing line, the text line, and a blank separator line. -/
def spec_srt_block (translated : Bool) (seq : ℕ) (r : SubRow) : List String :=
  [toString seq,
   srt_time_spec r.start_time ++ " --> " ++ srt_time_spec r.end_time,
   spec_text_line translated r,
   ""]

/-- Spec reading of the whole export: the blocks of all records in order,
sequence numbers starting at 1. -/
def spec_srt_lines (translated : Bool) (seq : ℕ) : List SubRow → List String
  | [] => []
  | r :: rest => spec_srt_block translated seq r ++ spec_srt_lines translated (seq + 1) rest

/-- Spec reading (claim C3): the context triple the bulk translation path
would compute for the record at position `i` of the video's rows ordered by
`start_time`, with `previous_translated` taken from the persisted
translations of the up-to-`W` preceding rows. -/
def bulk_context_at (rows : List SubRow) (context_window i : ℕ) :
    String × String × String :=
  let ordered := order_by_start_asc rows
  let texts := ordered.map fun r => r.text_original.getD ""
  let trans := ordered.map fun r => r.text_translated.getD ""
  (ctx_before texts context_window i,
   ctx_after texts context_window i,
   String.intercalate "\n" (pySlice trans (i - context_window) i))

/-! ### Basic lemmas about the embedded definitions -/

lemma length_pySlice (l : List α) (a b : ℕ) :
    (pySlice l a b).length = min (b - a) (l.length - a) := by
  simp [pySlice]

lemma pySlice_eq_map_range' (l : List α) (d : α) {a b : ℕ} (hb : b ≤ l.length) :
    pySlice l a b = (List.range' a (b - a)).map fun j => l.getD j d := by
  apply List.ext_getElem
  · simp [pySlice]; omega
  · intro i h1 h2
    have hlen : i < b - a := by simpa using h2
    have hia : a + i < l.length := by omega
    simp [pySlice, List.getD_eq_getElem?_getD, List.getElem?_eq_getElem hia]

lemma lastN_eq_drop (l : List α) (n : ℕ) : lastN n l = l.drop (l.length - n) := by
  unfold lastN
  rw [List.take_reverse, List.reverse_reverse]

lemma pySlice_last (l : List α) (n : ℕ) :
    pySlice l (l.length - n) l.length = lastN n l := by
  rw [lastN_eq_drop]
  unfold pySlice
  exact List.take_of_length_le (by simp)

lemma translateAcc_length (oracle : LLMOracle) (tgt : String) (W : ℕ)
    (texts : List String) : ∀ n, (translateAcc oracle tgt W texts n).length = n := by
  intro n
  induction n with
  | zero => rfl
  | succ n ih => simp [translateAcc, ih]

lemma translateAcc_take (oracle : LLMOracle) (tgt : String) (W : ℕ)
    (texts : List String) {n m : ℕ} (h : n ≤ m) :
    (translateAcc oracle tgt W texts m).take n = translateAcc oracle tgt W texts n := by
  induction m with
  | zero =>
    have : n = 0 := by omega
    subst this; rfl
  | succ m ih =>
    rcases Nat.lt_or_ge n (m + 1) with hlt | hge
    · have hn : n ≤ m := by omega
      rw [translateAcc, List.take_append_of_le_length
        (by rw [translateAcc_length]; exact hn)]
      exact ih hn
    · have : n = m + 1 := by omega
      subst this
      exact List.take_of_length_le (by rw [translateAcc_length])

lemma translateAcc_getElem? (oracle : LLMOracle) (tgt : String) (W : ℕ)
    (texts : List String) {i n : ℕ} (h : i < n) :
    (translateAcc oracle tgt W texts n)[i]? =
      some (translate_single_text oracle (texts.getD i "") tgt
        (ctx_before texts W i) (ctx_after texts W i)
        (prev_translated (translateAcc oracle tgt W texts i) W)) := by
  have hkey : (translateAcc oracle tgt W texts (i + 1))[i]? =
      some (translate_single_text oracle (texts.getD i "") tgt
        (ctx_before texts W i) (ctx_after texts W i)
        (prev_translated (translateAcc oracle tgt W texts i) W)) := by
    rw [translateAcc, List.getElem?_append_right
      (by rw [translateAcc_length]), translateAcc_length]
    simp
  calc (translateAcc oracle tgt W texts n)[i]?
      = ((translateAcc oracle tgt W texts n).take (i + 1))[i]? := by
        rw [List.getElem?_take_of_lt (Nat.lt_succ_self i)]
    _ = (translateAcc oracle tgt W texts (i + 1))[i]? := by
        rw [translateAcc_take oracle tgt W texts h]
    _ = _ := hkey

lemma translateAcc_getD (oracle : LLMOracle) (tgt : String) (W : ℕ)
    (texts : List String) {i n : ℕ} (h : i < n) (d : String) :
    (translateAcc oracle tgt W texts n).getD i d =
      translate_single_text oracle (texts.getD i "") tgt
        (ctx_before texts W i) (ctx_after texts W i)
        (prev_translated (translateAcc oracle tgt W texts i) W) := by
  rw [List.getD_eq_getElem?_getD, translateAcc_getElem? oracle tgt W texts h]
  rfl

lemma updateSegs_length : ∀ (ss : List PSeg) (ts : List String),
    (updateSegs ss ts).length = ss.length
  | [], ts => by cases ts <;> rfl
  | _ :: _, [] => rfl
  | s :: ss, t :: ts => by
    simp [updateSegs, updateSegs_length ss ts]

lemma updateSegs_getElem? : ∀ (ss : List PSeg) (ts : List String) (i : ℕ),
    i < ss.length → i < ts.length →
    (updateSegs ss ts)[i]? = some { ss.getD i pdflt with
      text_translated := some (ts.getD i ""), confidence := 9/10 }
  | [], _, i, hi, _ => by simp at hi
  | _ :: _, [], i, _, ht => by simp at ht
  | s :: ss, t :: ts, 0, _, _ => by simp [updateSegs]
  | s :: ss, t :: ts, i + 1, hi, ht => by
    have := updateSegs_getElem? ss ts i (by simpa using hi) (by simpa using ht)
    simpa [updateSegs] using this

lemma getD_map_text_original (segs : List PSeg) {i : ℕ} (hi : i < segs.length) :
    (segs.map PSeg.text_original).getD i "" = (segs.getD i pdflt).text_original := by
  have h' : i < (segs.map PSeg.text_original).length := by simpa using hi
  simp [List.getD_eq_getElem?_getD, List.getElem?_eq_getElem hi, List.getElem?_eq_getElem h']

lemma translate_segments_length (oracle : LLMOracle) (tgt : String) (W : ℕ)
    (segs : List PSeg) :
    (translate_segments oracle tgt W segs).length = segs.length := by
  unfold translate_segments
  split
  · rfl
  · rw [updateSegs_length]

lemma translate_segments_getD (oracle : LLMOracle) (tgt : String) (W : ℕ)
    (segs : List PSeg) {i : ℕ} (hi : i < segs.length) :
    (translate_segments oracle tgt W segs).getD i pdflt =
      { segs.getD i pdflt with
        text_translated := some ((translated_texts oracle tgt W
          (segs.map PSeg.text_original)).getD i ""), confidence := 9/10 } := by
  have hne : segs.isEmpty = false := by
    cases segs with
    | nil => simp at hi
    | cons a l => rfl
  have hlen : i < (translated_texts oracle tgt W (segs.map PSeg.text_original)).length := by
    rw [translated_texts, translateAcc_length]
    simpa using hi
  rw [translate_segments, hne]
  simp only [Bool.false_eq_true, if_false]
  rw [List.getD_eq_getElem?_getD,
    updateSegs_getElem? segs _ i hi hlen]
  rfl

/-! ### Claim theorems -/

/-- Claim C1: in `translate_segments`, the single-sentence translation call
for segment `i` receives `context_before` equal to the newline-join, oldest
first, of the original texts at indices `max(0, i-W) … i-1`; `context_after`
equal to the newline-join of the original texts at indices
`i+1 … min(N, i+1+W)-1`; and `previous_translated` equal to the newline-join
of the last up-to-`W` previously produced translated outputs — with never
more than `W` entries in any of the three, regardless of `N`. -/
theorem claim_C1 (oracle : LLMOracle) (target_language : String)
    (context_window : ℕ) (texts : List String) (i : ℕ) (hi : i < texts.length) :
    ctx_before texts context_window i
        = specJoinIdx texts (i - context_window) i
    ∧ ctx_after texts context_window i
        = specJoinIdx texts (i + 1) (min texts.length (i + 1 + context_window))
    ∧ prev_translated (translateAcc oracle target_language context_window texts i)
          context_window
        = String.intercalate "\n"
            (lastN context_window
              (translateAcc oracle target_language context_window texts i))
    ∧ (pySlice texts (i - context_window) i).length ≤ context_window
    ∧ (pySlice texts (i + 1)
          (min texts.length (i + 1 + context_window))).length ≤ context_window
    ∧ (lastN context_window
          (translateAcc oracle target_language context_window texts i)).length
        ≤ context_window
    ∧ (translated_texts oracle target_language context_window texts).getD i ""
        = translate_single_text oracle (texts.getD i "") target_language
            (ctx_before texts context_window i) (ctx_after texts context_window i)
            (prev_translated
              (translateAcc oracle target_language context_window texts i)
              context_window) := by
  refine ⟨?_, ?_, ?_, ?_, ?_, ?_, ?_⟩
  · rw [ctx_before, specJoinIdx,
      pySlice_eq_map_range' texts "" (le_of_lt hi)]
  · rw [ctx_after, specJoinIdx,
      pySlice_eq_map_range' texts "" (min_le_left _ _)]
  · rw [prev_translated, pySlice_last]
  · rw [length_pySlice]; omega
  · rw [length_pySlice]; omega
  · rw [lastN]; simp
  · exact translateAcc_getD oracle target_language context_window texts hi ""

/-- A chat oracle that always answers with a fixed string. -/
def constOracle : LLMOracle := fun _ _ _ _ _ => some "X"

/-- A chat oracle whose API call always raises. -/
def failOracle : LLMOracle := fun _ _ _ _ _ => none

/-- Witness for C1 at `texts = ["a", "b", "c"]`, `i = 1`, `W = 1`. -/
theorem claim_C1_witness :
    1 < (["a", "b", "c"] : List String).length
    ∧ (ctx_before ["a", "b", "c"] 1 1 = specJoinIdx ["a", "b", "c"] 0 1
      ∧ ctx_after ["a", "b", "c"] 1 1 = specJoinIdx ["a", "b", "c"] 2 (min 3 3)
      ∧ prev_translated (translateAcc constOracle "Chinese" 1 ["a", "b", "c"] 1) 1
          = String.intercalate "\n"
              (lastN 1 (translateAcc constOracle "Chinese" 1 ["a", "b", "c"] 1))
      ∧ (pySlice ["a", "b", "c"] 0 1).length ≤ 1
      ∧ (pySlice ["a", "b", "c"] 2 (min 3 3)).length ≤ 1
      ∧ (lastN 1 (translateAcc constOracle "Chinese" 1 ["a", "b", "c"] 1)).length ≤ 1
      ∧ (translated_texts constOracle "Chinese" 1 ["a", "b", "c"]).getD 1 ""
          = translate_single_text constOracle "b" "Chinese"
              (ctx_before ["a", "b", "c"] 1 1) (ctx_after ["a", "b", "c"] 1 1)
              (prev_translated (translateAcc constOracle "Chinese" 1 ["a", "b", "c"] 1) 1)) :=
  ⟨by decide, claim_C1 constOracle "Chinese" 1 ["a", "b", "c"] 1 (by decide)⟩

lemma pySlice_getD (l : List α) (d : α) {a b i : ℕ} (ha : a ≤ i) (hib : i < b)
    (hbl : b ≤ l.length) : (pySlice l a b).getD (i - a) d = l.getD i d := by
  have h1 : i - a < b - a := by omega
  have h2 : a + (i - a) = i := by omega
  rw [List.getD_eq_getElem?_getD, List.getD_eq_getElem?_getD, pySlice,
    List.getElem?_take_of_lt h1, List.getElem?_drop, h2]

/-- The value `translate_segments` produces for a segment whose single
translation call fails: the untranslated original text. -/
lemma translateAcc_getD_of_fail (oracle : LLMOracle) (tgt : String) (W : ℕ)
    (texts : List String) {j n : ℕ} (h : j < n)
    (hne : pyStrip (texts.getD j "") ≠ "")
    (hfail : oracle (texts.getD j "") tgt (ctx_before texts W j)
      (ctx_after texts W j)
      (prev_translated (translateAcc oracle tgt W texts j) W) = none) :
    (translateAcc oracle tgt W texts n).getD j "" = texts.getD j "" := by
  rw [translateAcc_getD oracle tgt W texts h, translate_single_text,
    translate_single_text_instr, if_neg hne, hfail]

/-- Claim C2: a failing single-sentence translation call makes that segment
fall back to its untranslated original text, the loop continues (every
segment of the output carries a translated-or-fallback text), the fallback
is the rolling-buffer entry seen inside the `previous_translated` window of
subsequent calls, and the job still reaches READY. -/
theorem claim_C2 (oracle : LLMOracle) (target_language : String)
    (context_window : ℕ) (segs : List PSeg) (j : ℕ) (hj : j < segs.length)
    (hne : pyStrip ((segs.map PSeg.text_original).getD j "") ≠ "")
    (hfail : oracle ((segs.map PSeg.text_original).getD j "") target_language
        (ctx_before (segs.map PSeg.text_original) context_window j)
        (ctx_after (segs.map PSeg.text_original) context_window j)
        (prev_translated (translateAcc oracle target_language context_window
          (segs.map PSeg.text_original) j) context_window) = none) :
    ((translate_segments oracle target_language context_window segs).getD j
        pdflt).text_translated = some ((segs.getD j pdflt).text_original)
    ∧ (translate_segments oracle target_language context_window segs).length
        = segs.length
    ∧ (∀ k, k < segs.length →
        ((translate_segments oracle target_language context_window segs).getD k
          pdflt).text_translated ≠ none)
    ∧ (∀ m, j < m →
        (translateAcc oracle target_language context_window
            (segs.map PSeg.text_original) m).getD j ""
          = (segs.getD j pdflt).text_original)
    ∧ (∀ m, j < m → m ≤ j + context_window →
        (pySlice (translateAcc oracle target_language context_window
              (segs.map PSeg.text_original) m) (m - context_window) m).getD
            (j - (m - context_window)) ""
          = (segs.getD j pdflt).text_original)
    ∧ (∀ (o : StageOracles) (s : Settings) (fs0 : Finset String)
        (path : String) (cfg : VideoConfig),
        o.file_exists = true → o.extract = .ok () → o.whisper_load = .ok () →
        (∃ ivs, o.vad = .ok ivs) →
        job_status (upload_and_process o s fs0 path cfg true true)
          = VideoStatus.ready) := by
  have hjm : j < (segs.map PSeg.text_original).length := by simpa using hj
  have hbuf : ∀ m, j < m →
      (translateAcc oracle target_language context_window
          (segs.map PSeg.text_original) m).getD j ""
        = (segs.getD j pdflt).text_original := by
    intro m hm
    rw [translateAcc_getD_of_fail oracle target_language context_window _ hm hne hfail,
      getD_map_text_original segs hj]
  refine ⟨?_, translate_segments_length _ _ _ _, ?_, hbuf, ?_, ?_⟩
  · rw [translate_segments_getD oracle target_language context_window segs hj]
    simp only [translated_texts]
    rw [hbuf _ hjm]
  · intro k hk
    rw [translate_segments_getD oracle target_language context_window segs hk]
    simp
  · intro m hm hmW
    have hlen : m ≤ (translateAcc oracle target_language context_window
        (segs.map PSeg.text_original) m).length := by
      rw [translateAcc_length]
    have := pySlice_getD (translateAcc oracle target_language context_window
        (segs.map PSeg.text_original) m) ""
      (a := m - context_window) (b := m) (i := j) (by omega) hm hlen
    rw [this, hbuf m hm]
  · rintro o s fs0 path cfg hfile hex hwl ⟨ivs, hvad⟩
    simp [upload_and_process, process_video, hfile, hex, hvad, hwl, job_status]

/-- Witness for C2: three segments, the middle call fails, `W = 1`. -/
theorem claim_C2_witness :
    (1 < ([⟨0, 1, "a", none, 1⟩, ⟨1, 2, "b", none, 1⟩,
        ⟨2, 3, "c", none, 1⟩] : List PSeg).length)
    ∧ pyStrip ((([⟨0, 1, "a", none, 1⟩, ⟨1, 2, "b", none, 1⟩,
        ⟨2, 3, "c", none, 1⟩] : List PSeg).map PSeg.text_original).getD 1 "") ≠ ""
    ∧ (let segs : List PSeg := [⟨0, 1, "a", none, 1⟩, ⟨1, 2, "b", none, 1⟩,
        ⟨2, 3, "c", none, 1⟩]
      ((translate_segments failOracle "Chinese" 1 segs).getD 1
        pdflt).text_translated = some ((segs.getD 1 pdflt).text_original)) := by
  have h := claim_C2 failOracle "Chinese" 1
    [⟨0, 1, "a", none, 1⟩, ⟨1, 2, "b", none, 1⟩, ⟨2, 3, "c", none, 1⟩] 1
    (by decide) (by decide) rfl
  exact ⟨by decide, by decide, h.1⟩

/-- Claim C4: for every upload, the persisted status values are exactly
`UPLOADING, PROCESSING, READY` or `UPLOADING, PROCESSING, ERROR` (each
transition once, `PROCESSING` never skipped); `READY` happens exactly when
the pipeline returned and the persistence step committed, in which case all
subtitle records of the run are persisted with it; `ERROR` happens on any
pipeline or persistence failure. -/
theorem claim_C4 (o : StageOracles) (s : Settings) (fs0 : Finset String)
    (path : String) (cfg : VideoConfig) (video_in_db persist_commit_ok : Bool) :
    ((upload_and_process o s fs0 path cfg video_in_db persist_commit_ok).status_trace
        = [VideoStatus.uploading, VideoStatus.processing, VideoStatus.ready]
      ∨ (upload_and_process o s fs0 path cfg video_in_db persist_commit_ok).status_trace
        = [VideoStatus.uploading, VideoStatus.processing, VideoStatus.error])
    ∧ ((upload_and_process o s fs0 path cfg video_in_db persist_commit_ok).status_trace
        = [VideoStatus.uploading, VideoStatus.processing, VideoStatus.ready]
      ↔ (∃ segs, (process_video o s fs0 path).result = .ok segs)
          ∧ video_in_db = true ∧ persist_commit_ok = true)
    ∧ (∀ segs, (process_video o s fs0 path).result = .ok segs →
        video_in_db = true → persist_commit_ok = true →
        (upload_and_process o s fs0 path cfg video_in_db persist_commit_ok).rows
          = segs.map subtitle_row_of_seg) := by
  cases hres : (process_video o s fs0 path).result with
  | error e =>
    cases video_in_db <;> cases persist_commit_ok <;>
      simp [upload_and_process, hres]
  | ok segs =>
    cases video_in_db <;> cases persist_commit_ok <;>
      simp [upload_and_process, hres]

lemma process_video_used (o : StageOracles) (s : Settings) (fs0 : Finset String)
    (path : String) :
    ((process_video o s fs0 path).used_whisper_model = none
      ∨ (process_video o s fs0 path).used_whisper_model = some s.whisper_model)
    ∧ ((process_video o s fs0 path).used_context_window = none
      ∨ (process_video o s fs0 path).used_context_window = some 3) := by
  cases hf : o.file_exists <;>
    cases hex : o.extract <;>
    cases hv : o.vad <;>
    cases hw : o.whisper_load <;>
    simp [process_video, hf, hex, hv, hw]

lemma upload_used (o : StageOracles) (s : Settings) (fs0 : Finset String)
    (path : String) (cfg : VideoConfig) (vdb pok : Bool) :
    (upload_and_process o s fs0 path cfg vdb pok).used_whisper_model
      = (process_video o s fs0 path).used_whisper_model
    ∧ (upload_and_process o s fs0 path cfg vdb pok).used_context_window
      = (process_video o s fs0 path).used_context_window := by
  cases hres : (process_video o s fs0 path).result with
  | error e => simp [upload_and_process, hres]
  | ok segs => cases vdb <;> cases pok <;> simp [upload_and_process, hres]

/-- Process-wide settings used in the concrete runs below (`whisper_model`
differs from the per-video choice on purpose). -/
def csettings : Settings := ⟨"medium", "Chinese", 15⟩

/-- Per-video configuration stored at upload in the concrete runs below. -/
def ccfg : VideoConfig := ⟨15, 5, "base"⟩

/-- Stage oracles for a fully successful run with one speech interval,
whose whisper decode answers with the model name it was invoked with. -/
def oracleOK : StageOracles :=
  { file_exists := true
    extract := .ok ()
    extract_leftover := false
    vad := .ok [⟨0, 16000⟩]
    whisper_load := .ok ()
    decode := fun m _ => m
    translate := constOracle }

/-- Witness for C4: the dichotomy of status traces at a concrete run. -/
theorem claim_C4_witness :
    (upload_and_process oracleOK csettings ∅ "uploads/v.mp4" ccfg true
        true).status_trace
      = [VideoStatus.uploading, VideoStatus.processing, VideoStatus.ready]
    ∨ (upload_and_process oracleOK csettings ∅ "uploads/v.mp4" ccfg true
        true).status_trace
      = [VideoStatus.uploading, VideoStatus.processing, VideoStatus.error] :=
  (claim_C4 oracleOK csettings ∅ "uploads/v.mp4" ccfg true true).1

/-- Counterexample to claim C5 as stated: a video uploaded with per-video
configuration `{batch_size := 15, context_window := 5, whisper_model :=
"base"}` while the process-wide settings say `whisper_model = "medium"` is
processed with model `"medium"` and context window `3` — the persisted
per-video configuration is not what the bulk run uses. -/
theorem claim_C5_counterexample :
    ¬ ((upload_and_process oracleOK csettings ∅ "uploads/v.mp4" ccfg true
          true).used_whisper_model = some ccfg.whisper_model
      ∧ (upload_and_process oracleOK csettings ∅ "uploads/v.mp4" ccfg true
          true).used_context_window = some ccfg.context_window) := by
  intro h
  have h1 := h.1
  rw [(upload_used oracleOK csettings ∅ "uploads/v.mp4" ccfg true true).1] at h1
  have : (process_video oracleOK csettings ∅ "uploads/v.mp4").used_whisper_model
      = some "medium" := by
    simp [process_video, oracleOK, csettings]
  rw [this] at h1
  simp [ccfg] at h1

/-- Claim C5, amended: the bulk pipeline run ignores the video's persisted
per-video configuration — `process_video_task` calls `process_video` with
only the file path, so the Transcriber receives the process-wide settings'
`whisper_model` and the translation stage the default `context_window = 3`,
whatever configuration was stored at upload. -/
theorem claim_C5_amended (o : StageOracles) (s : Settings) (fs0 : Finset String)
    (path : String) (cfg cfg' : VideoConfig) (vdb pok : Bool) :
    (upload_and_process o s fs0 path cfg vdb pok).used_whisper_model
        = (upload_and_process o s fs0 path cfg' vdb pok).used_whisper_model
    ∧ (upload_and_process o s fs0 path cfg vdb pok).used_context_window
        = (upload_and_process o s fs0 path cfg' vdb pok).used_context_window
    ∧ ((upload_and_process o s fs0 path cfg vdb pok).used_whisper_model = none
      ∨ (upload_and_process o s fs0 path cfg vdb pok).used_whisper_model
          = some s.whisper_model)
    ∧ ((upload_and_process o s fs0 path cfg vdb pok).used_context_window = none
      ∨ (upload_and_process o s fs0 path cfg vdb pok).used_context_window
          = some 3) := by
  obtain ⟨h1, h2⟩ := upload_used o s fs0 path cfg vdb pok
  obtain ⟨h1', h2'⟩ := upload_used o s fs0 path cfg' vdb pok
  obtain ⟨h3, h4⟩ := process_video_used o s fs0 path
  exact ⟨h1.trans h1'.symm, h2.trans h2'.symm, by rw [h1]; exact h3,
    by rw [h2]; exact h4⟩

/-- Claim C9: whenever the orchestrator gets past its source-file existence
check, the scoped temporary audio file is absent from the file system when
`process_video` returns — on success and on every stage failure alike. -/
theorem claim_C9 (o : StageOracles) (s : Settings) (fs0 : Finset String)
    (path : String) (batch_size : ℤ) (context_window : ℕ) (whisper_model : String)
    (hfile : o.file_exists = true) :
    temp_audio_path path ∉
      (process_video o s fs0 path batch_size context_window whisper_model).fs := by
  unfold process_video
  rw [hfile]
  simp only [Bool.true_eq_false, if_false]
  exact Finset.not_mem_erase _ _

/-- Witness for C9: a successful concrete run. -/
theorem claim_C9_witness :
    oracleOK.file_exists = true
    ∧ temp_audio_path "uploads/v.mp4" ∉
        (process_video oracleOK csettings ∅ "uploads/v.mp4" 15 3 "medium").fs :=
  ⟨rfl, claim_C9 oracleOK csettings ∅ "uploads/v.mp4" 15 3 "medium" rfl⟩

/-- Default interval used with `List.getD`. -/
def idflt : Interval := ⟨0, 0⟩

lemma transcribe_getD (decode : String → Interval → String) (model_name : String)
    (ivs : List Interval) {k : ℕ} (hk : k < ivs.length) :
    (transcribe_with_whisper decode model_name ivs).getD k pdflt =
      { start := ((ivs.getD k idflt).start : ℚ) / 16000
        end_ := ((ivs.getD k idflt).end_ : ℚ) / 16000
        text_original := pyStrip (decode model_name (ivs.getD k idflt))
        text_translated := none
        confidence := 1 } := by
  unfold transcribe_with_whisper
  rw [List.getD_eq_getElem?_getD, List.getElem?_map, List.getD_eq_getElem?_getD,
    List.getElem?_eq_getElem hk]
  rfl

lemma process_video_ok (o : StageOracles) (s : Settings) (fs0 : Finset String)
    (path : String) (ivs : List Interval) (hfile : o.file_exists = true)
    (hex : o.extract = .ok ()) (hwl : o.whisper_load = .ok ())
    (hvad : o.vad = .ok ivs) :
    (process_video o s fs0 path).result =
      .ok (translate_segments o.translate s.target_language 3
        (transcribe_with_whisper o.decode s.whisper_model ivs)) := by
  simp [process_video, hfile, hex, hvad, hwl]

/-- Claim C6: the Transcriber emits exactly one record per VAD interval, in
interval order, with start/end equal to the interval's sample offsets
divided by 16000; a successful run with `N` intervals persists exactly `N`
subtitle rows when the status becomes READY; and `N = 0` is a valid
non-error outcome yielding zero rows. -/
theorem claim_C6 (o : StageOracles) (s : Settings) (fs0 : Finset String)
    (path : String) (cfg : VideoConfig) (model_name : String)
    (ivs : List Interval) (hfile : o.file_exists = true)
    (hex : o.extract = .ok ()) (hwl : o.whisper_load = .ok ())
    (hvad : o.vad = .ok ivs)
    (hnofail : ∀ a b c d e, o.translate a b c d e ≠ none) :
    (transcribe_with_whisper o.decode model_name ivs).length = ivs.length
    ∧ (∀ k, k < ivs.length →
        ((transcribe_with_whisper o.decode model_name ivs).getD k pdflt).start
            = ((ivs.getD k idflt).start : ℚ) / 16000
        ∧ ((transcribe_with_whisper o.decode model_name ivs).getD k pdflt).end_
            = ((ivs.getD k idflt).end_ : ℚ) / 16000
        ∧ ((transcribe_with_whisper o.decode model_name ivs).getD k pdflt).text_original
            = pyStrip (o.decode model_name (ivs.getD k idflt)))
    ∧ (upload_and_process o s fs0 path cfg true true).rows.length = ivs.length
    ∧ job_status (upload_and_process o s fs0 path cfg true true) = VideoStatus.ready
    ∧ (ivs = [] → (upload_and_process o s fs0 path cfg true true).rows = []) := by
  have hpv := process_video_ok o s fs0 path ivs hfile hex hwl hvad
  refine ⟨by simp [transcribe_with_whisper], ?_, ?_, ?_, ?_⟩
  · intro k hk
    rw [transcribe_getD o.decode model_name ivs hk]
    exact ⟨rfl, rfl, rfl⟩
  · simp [upload_and_process, hpv, translate_segments_length, transcribe_with_whisper]
  · simp [upload_and_process, hpv, job_status]
  · intro hnil
    subst hnil
    simp [upload_and_process, hpv, translate_segments, transcribe_with_whisper]

/-- Witness for C6: the fully successful concrete run `oracleOK`. -/
theorem claim_C6_witness :
    oracleOK.file_exists = true
    ∧ oracleOK.extract = .ok ()
    ∧ oracleOK.whisper_load = .ok ()
    ∧ oracleOK.vad = .ok [⟨0, 16000⟩]
    ∧ (∀ a b c d e, oracleOK.translate a b c d e ≠ none)
    ∧ (upload_and_process oracleOK csettings ∅ "uploads/v.mp4" ccfg true
        true).rows.length = ([⟨0, 16000⟩] : List Interval).length
    ∧ job_status (upload_and_process oracleOK csettings ∅ "uploads/v.mp4" ccfg
        true true) = VideoStatus.ready := by
  have hno : ∀ a b c d e, oracleOK.translate a b c d e ≠ none := by
    intro a b c d e h
    simp [oracleOK, constOracle] at h
  have h := claim_C6 oracleOK csettings ∅ "uploads/v.mp4" ccfg "medium"
    [⟨0, 16000⟩] rfl rfl rfl rfl hno
  exact ⟨rfl, rfl, rfl, rfl, hno, h.2.2.1, h.2.2.2.1⟩

/-- Claim C8: manual subtitle creation stores `confidence = 1.0`, the bulk
translation stage assigns the fixed heuristic `0.9` to every record it
translates, and that constant is distinct from and lower than `1.0`. -/
theorem claim_C8 :
    (∀ (p : SubtitleCreate) (r : SubRow), create_subtitle true p = some r →
      r.confidence = 1)
    ∧ (∀ (oracle : LLMOracle) (target_language : String) (context_window : ℕ)
        (segs : List PSeg) (k : ℕ), k < segs.length →
        ((translate_segments oracle target_language context_window segs).getD k
          pdflt).confidence = 9/10)
    ∧ (9/10 : ℚ) < 1 ∧ (9/10 : ℚ) ≠ 1 := by
  refine ⟨?_, ?_, by norm_num, by norm_num⟩
  · intro p r h
    simp [create_subtitle] at h
    rw [← h]
  · intro oracle tgt W segs k hk
    rw [translate_segments_getD oracle tgt W segs hk]

/-- Witness for C8: a concrete machine-translated segment carries
confidence `0.9`. -/
theorem claim_C8_witness :
    ((translate_segments constOracle "Chinese" 3
      [⟨0, 1, "a", none, 1⟩]).getD 0 pdflt).confidence = 9/10 :=
  claim_C8.2.1 constOracle "Chinese" 3 [⟨0, 1, "a", none, 1⟩] 0 (by decide)

/-- Claim C10: an empty or whitespace-only original text makes
`translate_single_text` return `""` with zero API calls to the external
client; such a segment's stored translation is `""` (not a fallback copy of
the original), and the rolling translated-output buffer carries `""` at its
position for all later iterations. -/
theorem claim_C10 (oracle : LLMOracle) (target_language : String)
    (context_window : ℕ) (segs : List PSeg) (i : ℕ) (hi : i < segs.length)
    (hws : pyStrip ((segs.getD i pdflt).text_original) = "") :
    (∀ ctxB ctxA prevT, translate_single_text_instr oracle
        ((segs.getD i pdflt).text_original) target_language ctxB ctxA prevT
        = ⟨"", 0⟩)
    ∧ ((translate_segments oracle target_language context_window segs).getD i
        pdflt).text_translated = some ""
    ∧ (∀ m, i < m → (translateAcc oracle target_language context_window
        (segs.map PSeg.text_original) m).getD i "" = "") := by
  have htexts : (segs.map PSeg.text_original).getD i ""
      = (segs.getD i pdflt).text_original := getD_map_text_original segs hi
  have hbuf : ∀ m, i < m → (translateAcc oracle target_language context_window
      (segs.map PSeg.text_original) m).getD i "" = "" := by
    intro m hm
    rw [translateAcc_getD oracle target_language context_window _ hm,
      translate_single_text, translate_single_text_instr, htexts, if_pos hws]
  refine ⟨?_, ?_, hbuf⟩
  · intro ctxB ctxA prevT
    rw [translate_single_text_instr, if_pos hws]
  · rw [translate_segments_getD oracle target_language context_window segs hi]
    simp only [translated_texts]
    rw [hbuf _ (by simpa using hi)]

/-- Witness for C10: a whitespace-only first segment. -/
theorem claim_C10_witness :
    (0 < ([⟨0, 1, " ", none, 1⟩, ⟨1, 2, "b", none, 1⟩] : List PSeg).length)
    ∧ pyStrip ((([⟨0, 1, " ", none, 1⟩, ⟨1, 2, "b", none, 1⟩] : List PSeg).getD 0
        pdflt).text_original) = ""
    ∧ ((translate_segments constOracle "Chinese" 3
        [⟨0, 1, " ", none, 1⟩, ⟨1, 2, "b", none, 1⟩]).getD 0
        pdflt).text_translated = some "" := by
  have h := claim_C10 constOracle "Chinese" 3
    [⟨0, 1, " ", none, 1⟩, ⟨1, 2, "b", none, 1⟩] 0 (by decide) (by decide)
  exact ⟨by decide, by decide, h.2.1⟩

lemma truthy_iff (s : String) : truthy s = true ↔ s ≠ "" := by
  unfold truthy
  cases h : s.isEmpty with
  | false =>
    simp only [Bool.not_false, true_iff]
    intro he
    subst he
    exact absurd h (by decide)
  | true =>
    have he : s = "" := (String.isEmpty_iff s).1 h
    subst he
    simp

lemma pyInt_intCast (n : ℤ) : pyInt (n : ℚ) = n := by
  unfold pyInt
  split <;> simp

lemma pyInt_of_nonneg {q : ℚ} (h : 0 ≤ q) : pyInt q = ⌊q⌋ :=
  if_neg (not_lt.2 h)

/-- The embedded `format_srt_time` agrees, for non-negative timestamps, with
the spec-side `HH:MM:SS,mmm` rendering of the millisecond-truncated time. -/
lemma format_srt_time_eq_spec {t : ℚ} (ht : 0 ≤ t) :
    format_srt_time t = srt_time_spec t := by
  have hk : (⌊t / 3600⌋ : ℚ) ≤ t / 3600 := Int.floor_le _
  have hk1 : t / 3600 < ⌊t / 3600⌋ + 1 := Int.lt_floor_add_one _
  have ha : (⌊t / 60⌋ : ℚ) ≤ t / 60 := Int.floor_le _
  have ha1 : t / 60 < ⌊t / 60⌋ + 1 := Int.lt_floor_add_one _
  have hb : (⌊t⌋ : ℚ) ≤ t := Int.floor_le _
  have hb1 : t < ⌊t⌋ + 1 := Int.lt_floor_add_one _
  have hm1 : 60 * ⌊t / 3600⌋ ≤ ⌊t / 60⌋ := by
    rw [Int.le_floor]
    push_cast
    have h0 : (60 : ℚ) * (t / 3600) = t / 60 := by ring
    linarith
  have hm2 : ⌊t / 60⌋ < 60 * ⌊t / 3600⌋ + 60 := by
    rw [Int.floor_lt]
    push_cast
    have h0 : (60 : ℚ) * (t / 3600) = t / 60 := by ring
    linarith
  have hs1 : 60 * ⌊t / 60⌋ ≤ ⌊t⌋ := by
    rw [Int.le_floor]
    push_cast
    have h0 : (60 : ℚ) * (t / 60) = t := by ring
    linarith
  have hs2 : ⌊t⌋ < 60 * ⌊t / 60⌋ + 60 := by
    rw [Int.floor_lt]
    push_cast
    have h0 : (60 : ℚ) * (t / 60) = t := by ring
    linarith
  have hms1 : 1000 * ⌊t⌋ ≤ ⌊t * 1000⌋ := by
    rw [Int.le_floor]
    push_cast
    nlinarith
  have hms2 : ⌊t * 1000⌋ < 1000 * ⌊t⌋ + 1000 := by
    rw [Int.floor_lt]
    push_cast
    nlinarith
  have e1 : pyInt (pyFloorDiv t 3600) = ⌊t / 3600⌋ := by
    unfold pyFloorDiv
    exact pyInt_intCast _
  have e2 : pyInt (pyFloorDiv (pyMod t 3600) 60) = ⌊t / 60⌋ - 60 * ⌊t / 3600⌋ := by
    unfold pyFloorDiv pyMod
    rw [pyInt_intCast]
    have h0 : (t - 3600 * (⌊t / 3600⌋ : ℚ)) / 60
        = t / 60 - ((60 * ⌊t / 3600⌋ : ℤ) : ℚ) := by
      push_cast
      ring
    rw [h0, Int.floor_sub_int]
  have e3 : pyInt (pyMod t 60) = ⌊t⌋ - 60 * ⌊t / 60⌋ := by
    unfold pyMod
    rw [pyInt_of_nonneg (by push_cast; linarith)]
    have h0 : t - 60 * (⌊t / 60⌋ : ℚ) = t - ((60 * ⌊t / 60⌋ : ℤ) : ℚ) := by
      push_cast
      ring
    rw [h0, Int.floor_sub_int]
  have e4 : pyInt ((t - (pyInt t : ℚ)) * 1000) = ⌊t * 1000⌋ - 1000 * ⌊t⌋ := by
    rw [pyInt_of_nonneg ht, pyInt_of_nonneg (by nlinarith)]
    have h0 : (t - (⌊t⌋ : ℚ)) * 1000 = t * 1000 - ((1000 * ⌊t⌋ : ℤ) : ℚ) := by
      push_cast
      ring
    rw [h0, Int.floor_sub_int]
  unfold format_srt_time srt_time_spec
  rw [e1, e2, e3, e4]
  have m60 : ⌊t / 60⌋ % 60 = ⌊t / 60⌋ - 60 * ⌊t / 3600⌋ := by omega
  have s60 : ⌊t⌋ % 60 = ⌊t⌋ - 60 * ⌊t / 60⌋ := by omega
  have ms1000 : ⌊t * 1000⌋ % 1000 = ⌊t * 1000⌋ - 1000 * ⌊t⌋ := by omega
  rw [m60, s60, ms1000]

lemma srt_lines_eq_spec (use_translated : Bool) (subs : List SubRow)
    (h : ∀ r ∈ subs, 0 ≤ r.start_time ∧ 0 ≤ r.end_time) :
    ∀ seq, srt_lines use_translated seq subs
      = spec_srt_lines use_translated seq subs := by
  induction subs with
  | nil => intro seq; rfl
  | cons r rest ih =>
    intro seq
    have hr := h r (by simp)
    have hrest := fun x hx => h x (List.mem_cons_of_mem r hx)
    have htext : (if use_translated && truthyOpt r.text_translated then
          r.text_translated.getD ""
        else r.text_original.getD "") = spec_text_line use_translated r := by
      unfold spec_text_line truthyOpt
      cases use_translated with
      | false => simp
      | true =>
        cases htr : r.text_translated with
        | none => simp
        | some v =>
          by_cases hv : v = ""
          · subst hv
            simp [show truthy "" = false from rfl]
          · simp [truthy_iff _ |>.2 hv, hv]
    unfold srt_lines spec_srt_lines spec_srt_block
    rw [format_srt_time_eq_spec hr.1, format_srt_time_eq_spec hr.2, htext,
      ih hrest (seq + 1)]
    rfl

lemma srt_lines_length (use_translated : Bool) (subs : List SubRow) :
    ∀ seq, (srt_lines use_translated seq subs).length = 4 * subs.length := by
  induction subs with
  | nil => intro seq; rfl
  | cons r rest ih =>
    intro seq
    unfold srt_lines
    simp only [List.length_cons, ih (seq + 1), List.length]
    omega

/-- Claim C7: for every subtitle list (with the physically meaningful
non-negative timestamps), the export consists, per record, of a 1-based
sequence-number line, a zero-padded `HH:MM:SS,mmm --> HH:MM:SS,mmm` timing
line at millisecond precision, a text line that uses `text_translated`
exactly when `translated = true` and a non-empty translated text exists and
otherwise `text_original` (or `""` when absent), and a blank separator
line; in particular with `translated = false` the text line is always the
original text even when a translation is stored. -/
theorem claim_C7 (subtitles : List SubRow) (translated : Bool)
    (h : ∀ r ∈ subtitles, 0 ≤ r.start_time ∧ 0 ≤ r.end_time) :
    generate_srt subtitles translated
        = String.intercalate "\n" (spec_srt_lines translated 1 subtitles)
    ∧ (srt_lines translated 1 subtitles).length = 4 * subtitles.length
    ∧ (∀ r ∈ subtitles, spec_text_line false r = r.text_original.getD "") := by
  refine ⟨?_, srt_lines_length translated subtitles 1, ?_⟩
  · rw [generate_srt, srt_lines_eq_spec translated subtitles h 1]
  · intro r _
    unfold spec_text_line
    simp

/-- Witness for C7: one record with a populated translation, exported with
`translated = false`. -/
theorem claim_C7_witness :
    (∀ r ∈ ([⟨7321/2, 7322/2, some "o", some "tr", 1⟩] : List SubRow),
      0 ≤ r.start_time ∧ 0 ≤ r.end_time)
    ∧ generate_srt [⟨7321/2, 7322/2, some "o", some "tr", 1⟩] false
        = String.intercalate "\n"
            (spec_srt_lines false 1 [⟨7321/2, 7322/2, some "o", some "tr", 1⟩]) := by
  have hpos : ∀ r ∈ ([⟨7321/2, 7322/2, some "o", some "tr", 1⟩] : List SubRow),
      0 ≤ r.start_time ∧ 0 ≤ r.end_time := by
    intro r hr
    simp only [List.mem_singleton] at hr
    subst hr
    constructor <;> norm_num
  exact ⟨hpos,
    (claim_C7 [⟨7321/2, 7322/2, some "o", some "tr", 1⟩] false hpos).1⟩

/-! ### Lemmas on the neighbor queries of point re-translation -/

lemma insertAsc_of_le (r : SubRow) (l : List SubRow)
    (h : ∀ y ∈ l, r.start_time ≤ y.start_time) : insertAsc r l = r :: l := by
  cases l with
  | nil => rfl
  | cons x xs =>
    rw [insertAsc, if_pos (h x (by simp))]

lemma order_by_start_asc_of_sorted (l : List SubRow)
    (h : l.Pairwise fun a b => a.start_time ≤ b.start_time) :
    order_by_start_asc l = l := by
  induction l with
  | nil => rfl
  | cons x xs ih =>
    rw [List.pairwise_cons] at h
    rw [order_by_start_asc, ih h.2, insertAsc_of_le x xs h.1]

lemma insertDesc_of_lt (r : SubRow) (l : List SubRow)
    (h : ∀ y ∈ l, r.start_time < y.start_time) : insertDesc r l = l ++ [r] := by
  induction l with
  | nil => rfl
  | cons x xs ih =>
    rw [insertDesc, if_neg (not_le.2 (h x (by simp))), List.cons_append,
      ih (fun y hy => h y (by simp [hy]))]

lemma order_by_start_desc_of_sorted_asc (l : List SubRow)
    (h : l.Pairwise fun a b => a.start_time < b.start_time) :
    order_by_start_desc l = l.reverse := by
  induction l with
  | nil => rfl
  | cons x xs ih =>
    rw [List.pairwise_cons] at h
    rw [order_by_start_desc, ih h.2,
      insertDesc_of_lt x xs.reverse (fun y hy => h.1 y (by simpa using hy)),
      List.reverse_cons]

lemma filter_lt_of_sorted : ∀ (rows : List SubRow) (i : ℕ) (hi : i < rows.length),
    rows.Pairwise (fun a b => a.start_time < b.start_time) →
    rows.filter (fun r => decide (r.start_time < (rows.get ⟨i, hi⟩).start_time))
      = rows.take i
  | [], i, hi, _ => by simp at hi
  | x :: xs, 0, _, h => by
    rw [List.pairwise_cons] at h
    rw [List.take_zero, List.filter_eq_nil_iff]
    intro a ha
    simp only [decide_eq_true_eq]
    rcases List.mem_cons.1 ha with rfl | hmem
    · simp
    · exact not_lt.2 (le_of_lt (h.1 a hmem))
  | x :: xs, i + 1, hi, h => by
    have h' := h
    rw [List.pairwise_cons] at h'
    have hix : i < xs.length := by simpa using hi
    have hxlt : x.start_time < (xs.get ⟨i, hix⟩).start_time :=
      h'.1 _ (List.get_mem xs i hix)
    show List.filter _ (x :: xs) = x :: xs.take i
    rw [List.filter_cons_of_pos (by simpa using hxlt)]
    congr 1
    exact filter_lt_of_sorted xs i hix h'.2

lemma filter_gt_of_sorted : ∀ (rows : List SubRow) (i : ℕ) (hi : i < rows.length),
    rows.Pairwise (fun a b => a.start_time < b.start_time) →
    rows.filter (fun r => decide ((rows.get ⟨i, hi⟩).start_time < r.start_time))
      = rows.drop (i + 1)
  | [], i, hi, _ => by simp at hi
  | x :: xs, 0, _, h => by
    rw [List.pairwise_cons] at h
    show List.filter _ (x :: xs) = xs
    rw [List.filter_cons_of_neg (by simp),
      List.filter_eq_self.2 (fun a ha => by simpa using h.1 a ha)]
  | x :: xs, i + 1, hi, h => by
    have h' := h
    rw [List.pairwise_cons] at h'
    have hix : i < xs.length := by simpa using hi
    have hxlt : x.start_time < (xs.get ⟨i, hix⟩).start_time :=
      h'.1 _ (List.get_mem xs i hix)
    show List.filter _ (x :: xs) = xs.drop (i + 1)
    rw [List.filter_cons_of_neg (by simpa using not_lt.2 (le_of_lt hxlt))]
    exact filter_gt_of_sorted xs i hix h'.2

lemma queryPrev_sorted (rows : List SubRow) (i : ℕ) (hi : i < rows.length)
    (hs : rows.Pairwise fun a b => a.start_time < b.start_time) (W : ℕ) :
    queryPrev rows (rows.get ⟨i, hi⟩).start_time W
      = ((rows.take i).reverse).take W := by
  rw [queryPrev, filter_lt_of_sorted rows i hi hs,
    order_by_start_desc_of_sorted_asc _ (hs.sublist (List.take_sublist i rows))]

lemma queryPrev_reverse (rows : List SubRow) (i : ℕ) (hi : i < rows.length)
    (hs : rows.Pairwise fun a b => a.start_time < b.start_time) (W : ℕ) :
    (queryPrev rows (rows.get ⟨i, hi⟩).start_time W).reverse
      = pySlice rows (i - W) i := by
  rw [queryPrev_sorted rows i hi hs W, List.take_reverse, List.reverse_reverse]
  have hlen : (rows.take i).length = i := by
    simp only [List.length_take]
    omega
  rw [hlen, List.drop_take]
  unfold pySlice
  rfl

lemma queryNext_sorted (rows : List SubRow) (i : ℕ) (hi : i < rows.length)
    (hs : rows.Pairwise fun a b => a.start_time < b.start_time) (W : ℕ) :
    queryNext rows (rows.get ⟨i, hi⟩).start_time W
      = (rows.drop (i + 1)).take W := by
  rw [queryNext, filter_gt_of_sorted rows i hi hs,
    order_by_start_asc_of_sorted _
      ((hs.sublist (List.drop_sublist (i + 1) rows)).imp le_of_lt)]

lemma filterMap_truthy_eq_map (f : SubRow → Option String) (l : List SubRow)
    (h : ∀ r ∈ l, truthyOpt (f r) = true) :
    (l.filterMap fun r => if truthyOpt (f r) then f r else none)
      = l.map fun r => (f r).getD "" := by
  induction l with
  | nil => rfl
  | cons x xs ih =>
    have hx := h x (by simp)
    obtain ⟨v, hv⟩ : ∃ v, f x = some v := by
      cases hfx : f x with
      | none => rw [hfx] at hx; simp [truthyOpt] at hx
      | some v => exact ⟨v, rfl⟩
    rw [List.filterMap_cons, List.map_cons, if_pos hx, hv]
    rw [ih fun r hr => h r (List.mem_cons_of_mem x hr)]
    rfl

lemma pySlice_map (f : SubRow → String) (l : List SubRow) (a b : ℕ) :
    pySlice (l.map f) a b = (pySlice l a b).map f := by
  unfold pySlice
  rw [List.map_take, List.map_drop]

lemma take_min_length (l : List SubRow) (n : ℕ) :
    l.take (min l.length n) = l.take n := by
  rw [min_comm, ← List.take_take, List.take_length]

lemma mem_of_mem_pySlice {r : SubRow} {l : List SubRow} {a b : ℕ}
    (h : r ∈ pySlice l a b) : r ∈ l :=
  List.mem_of_mem_drop (List.mem_of_mem_take h)

lemma point_context_before_eq (rows : List SubRow) (i : ℕ) (hi : i < rows.length)
    (hs : rows.Pairwise fun a b => a.start_time < b.start_time)
    (horig : ∀ r ∈ rows, truthyOpt r.text_original = true) (W : ℕ) :
    point_context_before rows (rows.get ⟨i, hi⟩).start_time W
      = ctx_before ((order_by_start_asc rows).map fun r =>
          r.text_original.getD "") W i := by
  rw [point_context_before, queryPrev_reverse rows i hi hs W,
    filterMap_truthy_eq_map _ _ (fun r hr => horig r (mem_of_mem_pySlice hr)),
    order_by_start_asc_of_sorted rows (hs.imp le_of_lt), ctx_before, pySlice_map]

lemma point_context_after_eq (rows : List SubRow) (i : ℕ) (hi : i < rows.length)
    (hs : rows.Pairwise fun a b => a.start_time < b.start_time)
    (horig : ∀ r ∈ rows, truthyOpt r.text_original = true) (W : ℕ) :
    point_context_after rows (rows.get ⟨i, hi⟩).start_time W
      = ctx_after ((order_by_start_asc rows).map fun r =>
          r.text_original.getD "") W i := by
  have hslice : pySlice rows (i + 1) (min rows.length (i + 1 + W))
      = (rows.drop (i + 1)).take W := by
    unfold pySlice
    have h1 : min rows.length (i + 1 + W) - (i + 1)
        = min (rows.length - (i + 1)) W := by omega
    rw [h1, ← List.length_drop, take_min_length]
  rw [point_context_after, queryNext_sorted rows i hi hs W,
    filterMap_truthy_eq_map _ _
      (fun r hr => horig r (List.mem_of_mem_drop (List.mem_of_mem_take hr))),
    order_by_start_asc_of_sorted rows (hs.imp le_of_lt), ctx_after,
    List.length_map, pySlice_map, hslice]

lemma point_previous_translated_eq (rows : List SubRow) (i : ℕ)
    (hi : i < rows.length)
    (hs : rows.Pairwise fun a b => a.start_time < b.start_time)
    (htrans : ∀ r ∈ rows, truthyOpt r.text_translated = true) (W : ℕ) :
    point_previous_translated rows (rows.get ⟨i, hi⟩).start_time W
      = String.intercalate "\n"
          (pySlice ((order_by_start_asc rows).map fun r =>
            r.text_translated.getD "") (i - W) i) := by
  rw [point_previous_translated, queryPrev_reverse rows i hi hs W,
    filterMap_truthy_eq_map _ _ (fun r hr => htrans r (mem_of_mem_pySlice hr)),
    order_by_start_asc_of_sorted rows (hs.imp le_of_lt), pySlice_map]

lemma truthyOpt_getD {o : Option String} (h : truthyOpt o = true) :
    truthy (o.getD "") = true := by
  cases o with
  | none => simp [truthyOpt] at h
  | some v => exact h

/-- Claim C3, amended: point re-translation queries at most `context_window`
persisted neighbors on each side of the target's start time, and — when
every persisted row carries a non-empty original and a non-empty translated
text, and start times are strictly increasing — the context triple it hands
to the single-sentence call equals what the bulk path would compute at that
position; when that call's API request fails, the target's stored
translated text is set to its untranslated original text (the error does
not propagate to the caller). -/
theorem claim_C3_amended (oracle : LLMOracle) (target_language : String)
    (context_window : ℕ) (rows : List SubRow) (i : ℕ) (hi : i < rows.length)
    (hs : rows.Pairwise fun a b => a.start_time < b.start_time)
    (horig : ∀ r ∈ rows, truthyOpt r.text_original = true)
    (htrans : ∀ r ∈ rows, truthyOpt r.text_translated = true) :
    (update_subtitle_retranslate oracle target_language context_window rows
        (rows.get ⟨i, hi⟩)).prev_subs.length ≤ context_window
    ∧ (update_subtitle_retranslate oracle target_language context_window rows
        (rows.get ⟨i, hi⟩)).next_subs.length ≤ context_window
    ∧ ((update_subtitle_retranslate oracle target_language context_window rows
          (rows.get ⟨i, hi⟩)).context_before,
       (update_subtitle_retranslate oracle target_language context_window rows
          (rows.get ⟨i, hi⟩)).context_after,
       (update_subtitle_retranslate oracle target_language context_window rows
          (rows.get ⟨i, hi⟩)).previous_translated)
        = bulk_context_at rows context_window i
    ∧ (oracle ((rows.get ⟨i, hi⟩).text_original.getD "") target_language
          (point_context_before rows (rows.get ⟨i, hi⟩).start_time context_window)
          (point_context_after rows (rows.get ⟨i, hi⟩).start_time context_window)
          (point_previous_translated rows (rows.get ⟨i, hi⟩).start_time
            context_window) = none →
        pyStrip ((rows.get ⟨i, hi⟩).text_original.getD "") ≠ "" →
        (update_subtitle_retranslate oracle target_language context_window rows
          (rows.get ⟨i, hi⟩)).sub.text_translated
          = some ((rows.get ⟨i, hi⟩).text_original.getD "")) := by
  have htr : truthyOpt (rows.get ⟨i, hi⟩).text_original = true :=
    horig _ (List.get_mem rows i hi)
  rw [update_subtitle_retranslate, if_pos htr]
  refine ⟨?_, ?_, ?_, ?_⟩
  · show (queryPrev rows (rows.get ⟨i, hi⟩).start_time context_window).length
      ≤ context_window
    rw [queryPrev_sorted rows i hi hs]
    exact List.length_take_le _ _
  · show (queryNext rows (rows.get ⟨i, hi⟩).start_time context_window).length
      ≤ context_window
    rw [queryNext_sorted rows i hi hs]
    exact List.length_take_le _ _
  · show (point_context_before rows (rows.get ⟨i, hi⟩).start_time context_window,
        point_context_after rows (rows.get ⟨i, hi⟩).start_time context_window,
        point_previous_translated rows (rows.get ⟨i, hi⟩).start_time context_window)
        = bulk_context_at rows context_window i
    rw [point_context_before_eq rows i hi hs horig context_window,
      point_context_after_eq rows i hi hs horig context_window,
      point_previous_translated_eq rows i hi hs htrans context_window]
    rfl
  · intro hfail hstrip
    have hnt : translate_single_text oracle
        ((rows.get ⟨i, hi⟩).text_original.getD "") target_language
        (point_context_before rows (rows.get ⟨i, hi⟩).start_time context_window)
        (point_context_after rows (rows.get ⟨i, hi⟩).start_time context_window)
        (point_previous_translated rows (rows.get ⟨i, hi⟩).start_time
          context_window) = (rows.get ⟨i, hi⟩).text_original.getD "" := by
      rw [translate_single_text, translate_single_text_instr, if_neg hstrip, hfail]
    show (if truthy (translate_single_text oracle
          ((rows.get ⟨i, hi⟩).text_original.getD "") target_language
          (point_context_before rows (rows.get ⟨i, hi⟩).start_time context_window)
          (point_context_after rows (rows.get ⟨i, hi⟩).start_time context_window)
          (point_previous_translated rows (rows.get ⟨i, hi⟩).start_time
            context_window)) then
        { rows.get ⟨i, hi⟩ with text_translated := some (translate_single_text oracle
            ((rows.get ⟨i, hi⟩).text_original.getD "") target_language
            (point_context_before rows (rows.get ⟨i, hi⟩).start_time context_window)
            (point_context_after rows (rows.get ⟨i, hi⟩).start_time context_window)
            (point_previous_translated rows (rows.get ⟨i, hi⟩).start_time
              context_window)) }
      else rows.get ⟨i, hi⟩).text_translated
        = some ((rows.get ⟨i, hi⟩).text_original.getD "")
    rw [hnt, if_pos (truthyOpt_getD htr)]

/-- Persisted rows with an empty-original neighbor, used to refute C3 as
stated. -/
def exRows : List SubRow :=
  [⟨0, 1, some "", some "T0", 1⟩,
   ⟨1, 2, some "a", some "T1", 1⟩,
   ⟨2, 3, some "c", some "Tc", 1⟩]

/-- Counterexample to claim C3 as stated: with a persisted neighbor whose
original text is empty, the point path's `context_before` (which filters
falsy texts out) differs from the bulk path's (which joins them verbatim);
and when the single call fails, the stored translated text changes — it
becomes the untranslated original — instead of being left unchanged. -/
theorem claim_C3_counterexample :
    (update_subtitle_retranslate failOracle "Chinese" 3 exRows
        ⟨2, 3, some "c", some "Tc", 1⟩).context_before
      ≠ (bulk_context_at exRows 3 2).1
    ∧ (update_subtitle_retranslate failOracle "Chinese" 3 exRows
        ⟨2, 3, some "c", some "Tc", 1⟩).sub.text_translated
      ≠ (⟨2, 3, some "c", some "Tc", 1⟩ : SubRow).text_translated := by
  decide

/-- Rows whose texts are all non-empty, used as the witness for the amended
C3. -/
def exRowsW : List SubRow :=
  [⟨0, 1, some "a", some "TA", 1⟩,
   ⟨1, 2, some "b", some "TB", 1⟩,
   ⟨2, 3, some "c", some "TC", 1⟩]

/-- Witness for the amended C3 at `exRowsW`, target index 1, window 1. -/
theorem claim_C3_witness :
    (1 < exRowsW.length)
    ∧ (exRowsW.Pairwise fun a b => a.start_time < b.start_time)
    ∧ (∀ r ∈ exRowsW, truthyOpt r.text_original = true)
    ∧ (∀ r ∈ exRowsW, truthyOpt r.text_translated = true)
    ∧ ((update_subtitle_retranslate constOracle "Chinese" 1 exRowsW
          (exRowsW.get ⟨1, by decide⟩)).context_before,
       (update_subtitle_retranslate constOracle "Chinese" 1 exRowsW
          (exRowsW.get ⟨1, by decide⟩)).context_after,
       (update_subtitle_retranslate constOracle "Chinese" 1 exRowsW
          (exRowsW.get ⟨1, by decide⟩)).previous_translated)
        = bulk_context_at exRowsW 1 1 := by
  have h := claim_C3_amended constOracle "Chinese" 1 exRowsW 1 (by decide)
    (by decide) (by decide) (by decide)
  exact ⟨by decide, by decide, by decide, by decide, h.2.2.1⟩

end AutoTranslate
